import Mathlib

/-!
Shallow embedding of `src/beatboxer/beatboxer.py` (class `BeatBoxer` and its
helper class `Mlist`), together with proofs about the behaviour of the
pattern-editing shortcuts, tempo validation, rendering lengths and the
beat-store lifecycle.

Audio is modelled by its length in milliseconds: `pydub`'s
`AudioSegment.silent(d)` produces `max d 0` ms of silence, `a + b` concatenates
(lengths add) and `a.overlay(b, position=p)` returns a segment of `a`'s length,
so the mixing loop of `make_a_beat` never changes the canvas length; the only
observable effects of the loop are `KeyError`s from unknown clip names.

Python object identity matters for the claims about template mutation, so
`Mlist` cells live on an explicit heap (`Heap`), and a Grid Template is a list
of heap references; `list(measure)` copies the outer list (value semantics in
Lean) while the referenced cells stay shared, exactly as in CPython.
-/

namespace BeatBoxer

/-- The kinds of Python exceptions the embedded code can raise. -/
inductive PyErr where
  /-- the `Exception("base_note can't be ...")` raised by tempo validation -/
  | baseNoteError
  /-- the `Exception("Unknown edit type: ...")` raised by `_edit_template` -/
  | editTypeError
  /-- the `Exception("Audio already exists in self.current_beat...")` -/
  | activeBeatError
  | zeroDivisionError
  | indexError
  | keyError
  /-- out-of-model dynamic-typing failure (e.g. subscripting `None`) -/
  | typeError
deriving DecidableEq, Repr

/-- A grid cell: the contents of one `Mlist`, an insertion-ordered list of
oneshot names kept free of duplicates by the conditional append. -/
abbrev Cell := List String

/-- Embeds `Mlist._cappend`: append only when the name is absent. -/
def cappend (c : Cell) (n : String) : Cell := if n ∈ c then c else c ++ [n]

/-- Embeds `Mlist._cremove`: remove (first occurrence) when present, never fails. -/
def cremove (c : Cell) (n : String) : Cell := if n ∈ c then c.erase n else c

/-- Embeds `Mlist.cchange`: dispatch on the edit type; any other etype is a no-op. -/
def cchange (c : Cell) (n : String) (etype : String) : Cell :=
  if etype = "append" then cappend c n
  else if etype = "remove" then cremove c n
  else c

/-- Heap of `Mlist` objects; a cell reference is an index into it. -/
abbrev Heap := List Cell

/-- Dereference a cell. -/
def heapGet (h : Heap) (i : Nat) : Cell := h.getD i []

/-- Mutate a cell in place. -/
def heapSet (h : Heap) (i : Nat) (c : Cell) : Heap := h.set i c

/-- Do the two leading characters form one of the ordinal suffixes
`st`/`nd`/`rd`/`th` of the pattern `every_(\d+)(?:st|nd|rd|th)`? -/
def ordSuffix : List Char → Bool
  | 's' :: 't' :: _ => true
  | 'n' :: 'd' :: _ => true
  | 'r' :: 'd' :: _ => true
  | 't' :: 'h' :: _ => true
  | _ => false

/-- Numeric value of a digit run (the regex group `(\d+)`). -/
def digitsToNat (ds : List Char) : Nat :=
  ds.foldl (fun a c => 10 * a + (c.toNat - '0'.toNat)) 0

/-- Try to match `every_(\d+)(?:st|nd|rd|th)` at the head of the character
list, returning the parsed group. `(\d+)` is greedy; the ordinal suffixes
contain no digit, so maximal munch loses no match. -/
def matchNthAt : List Char → Option Nat
  | 'e' :: 'v' :: 'e' :: 'r' :: 'y' :: '_' :: rest =>
    let ds := rest.takeWhile Char.isDigit
    if ds ≠ [] ∧ ordSuffix (rest.dropWhile Char.isDigit) then some (digitsToNat ds)
    else none
  | _ => none

/-- Leftmost match of the (unanchored) pattern over the whole string:
`re.findall('every_(\d+)(?:st|nd|rd|th)', key)[0]`. -/
def findNthFrom : List Char → Option Nat
  | [] => none
  | c :: cs =>
    match matchNthAt (c :: cs) with
    | some n => some n
    | none => findNthFrom cs

/-- Returns `none` iff `re.findall('every_(\d+)(?:st|nd|rd|th)', key)` is empty;
otherwise the first match's integer group. -/
def findEveryNth (key : String) : Option Nat := findNthFrom key.toList

/-- Payload of one keyword shortcut.  Python kwargs are dynamically typed; the
three constructors are the shapes `make_a_beat`'s docstring prescribes for
`every_beat`, `every_<nth>` and `single` respectively.  A payload whose shape
does not fit its key is out of model and mapped to `typeError`. -/
inductive ShortcutArg where
  | names (ns : List String)
  | pairs (ps : List (String × Int))
  | singles (m : List (String × List Int))
deriving DecidableEq, Repr

/-- A kwargs dict of shortcuts, in insertion order. -/
abbrev Shortcuts := List (String × ShortcutArg)

/-- The `every_beat` branch: for each beat index, `cchange` each listed
oneshot on that cell. -/
def everyBeatLoop (etype : String) (ns : List String) (ms : List Nat) :
    Heap → List Nat → Heap
  | h, [] => h
  | h, ind :: rest =>
    let cid := ms.getD ind 0
    everyBeatLoop etype ns ms
      (heapSet h cid (ns.foldl (fun c n => cchange c n etype) (heapGet h cid))) rest

/-- Inner loop of the `every_<nth>` branch for one beat index: each
`(oneshot, offset)` pair touches the cell iff `ind_beat >= offset` and
`(ind_beat - offset) % nth == 0`; `% 0` is a `ZeroDivisionError`. -/
def pairsStep (etype : String) (nth : Nat) (indBeat : Nat) (cid : Nat) :
    Heap → List (String × Int) → Heap × Option PyErr
  | h, [] => (h, none)
  | h, (name, off) :: rest =>
    if off ≤ (indBeat : Int) then
      if nth = 0 then (h, some .zeroDivisionError)
      else if ((indBeat : Int) - off) % (nth : Int) = 0 then
        pairsStep etype nth indBeat cid
          (heapSet h cid (cchange (heapGet h cid) name etype)) rest
      else pairsStep etype nth indBeat cid h rest
    else pairsStep etype nth indBeat cid h rest

/-- Outer loop of the `every_<nth>` branch over all beat indices. -/
def nthLoop (etype : String) (nth : Nat) (ps : List (String × Int)) (ms : List Nat) :
    Heap → List Nat → Heap × Option PyErr
  | h, [] => (h, none)
  | h, ind :: rest =>
    match pairsStep etype nth ind (ms.getD ind 0) h ps with
    | (h', some e) => (h', some e)
    | (h', none) => nthLoop etype nth ps ms h' rest

/-- CPython sequence indexing: negative indices count from the end; anything
outside `-len .. len-1` is an `IndexError` (`none`). -/
def pyIndex (len : Nat) (i : Int) : Option Nat :=
  if 0 ≤ i then (if i < (len : Int) then some i.toNat else none)
  else (if -i ≤ (len : Int) then some (len - (-i).toNat) else none)

/-- The `single` branch, inner loop over the index list of one oneshot. -/
def singleIdxLoop (etype : String) (name : String) (ms : List Nat) :
    Heap → List Int → Heap × Option PyErr
  | h, [] => (h, none)
  | h, i :: rest =>
    match pyIndex ms.length i with
    | none => (h, some .indexError)
    | some j =>
      let cid := ms.getD j 0
      singleIdxLoop etype name ms
        (heapSet h cid (cchange (heapGet h cid) name etype)) rest

/-- The `single` branch, outer loop over the `name -> indices` dict. -/
def singleLoop (etype : String) (ms : List Nat) :
    Heap → List (String × List Int) → Heap × Option PyErr
  | h, [] => (h, none)
  | h, (name, idxs) :: rest =>
    match singleIdxLoop etype name ms h idxs with
    | (h', some e) => (h', some e)
    | (h', none) => singleLoop etype ms h' rest

/-- Dispatch of one keyword shortcut, in the source's branch order:
`every_beat`, then the `every_<nth>` regex, then `single`; any other key
falls through all three branches and is silently skipped. -/
def applyShortcut (etype : String) (ms : List Nat) (h : Heap) :
    String × ShortcutArg → Heap × Option PyErr
  | (key, arg) =>
    if key = "every_beat" then
      match arg with
      | .names ns => (everyBeatLoop etype ns ms h (List.range ms.length), none)
      | _ => (h, some .typeError)
    else
      match findEveryNth key with
      | some nth =>
        match arg with
        | .pairs ps => nthLoop etype nth ps ms h (List.range ms.length)
        | _ => (h, some .typeError)
      | none =>
        if key = "single" then
          match arg with
          | .singles m => singleLoop etype ms h m
          | _ => (h, some .typeError)
        else (h, none)

/-- The kwargs loop of `_edit_template`: shortcuts are applied one after the
other; an exception aborts the loop with the heap as mutated so far. -/
def editTemplateGo (etype : String) (ms : List Nat) :
    Heap → Shortcuts → Heap × Option PyErr
  | h, [] => (h, none)
  | h, s :: rest =>
    match applyShortcut etype ms h s with
    | (h', some e) => (h', some e)
    | (h', none) => editTemplateGo etype ms h' rest

/-- Embeds `BeatBoxer._edit_template` acting on heap-allocated cells: validates the
edit type, then applies each shortcut in order to the referenced cells
in place. -/
def edit_template (h : Heap) (ms : List Nat) (etype : String) (sc : Shortcuts) :
    Heap × Option PyErr :=
  if etype = "append" ∨ etype = "remove" then editTemplateGo etype ms h sc
  else (h, some .editTypeError)

/-- A rendered Composition: the `self.current_beat` dict.  The audio buffer is
modelled by its length in milliseconds; `measure` is `list(measure)`, so it
holds the same cell references as the template it was rendered from. -/
structure Comp where
  audioLen : Nat
  beats_per_measure : Nat
  bpm : Int
  num_measures : Nat
  base_note : Nat
  measure : List Nat
  repeatable : Bool
deriving DecidableEq, Repr

/-- State of one `BeatBoxer` object.  `oneshots` maps each clip name to its
length in ms (the clip library is read-only during composition); `ibpm` and
`spb` are the source's `_bpm` and `_spb` fields; `stored` is the
`stored_beats` dict in insertion order (Python can store `None` there, hence
`Option Comp`). -/
structure BB where
  oneshots : List (String × Nat)
  bpm : Int
  base_note : Nat
  ibpm : Int
  spb : Int
  heap : Heap
  current : Option Comp
  stored : List (String × Option Comp)
deriving DecidableEq, Repr

/-- The check `bool(base_note & (base_note - 1)) or not base_note`: true iff the
base-note validation raises. -/
def badBaseNote (n : Nat) : Bool := (n &&& (n - 1) != 0) || (n == 0)

/-- Embeds `BeatBoxer.__init__` (the `save_path` argument only feeds file output,
which is out of scope).  `60000 // self._bpm` is Python floor division and
raises `ZeroDivisionError` when `(base_note // 4) * bpm` is zero. -/
def init (oneshots : List (String × Nat)) (bpm : Int) (base_note : Nat) :
    Except PyErr BB :=
  if badBaseNote base_note then .error .baseNoteError
  else
    let ibpm : Int := ((base_note / 4 : Nat) : Int) * bpm
    if ibpm = 0 then .error .zeroDivisionError
    else .ok { oneshots := oneshots, bpm := bpm, base_note := base_note,
               ibpm := ibpm, spb := Int.fdiv 60000 ibpm,
               heap := [], current := none, stored := [] }

/-- Did construction succeed? -/
def initOk (e : Except PyErr BB) : Bool :=
  match e with
  | .ok _ => true
  | .error _ => false

/-- Embeds `BeatBoxer.change_bpm`.  `self.bpm` and `self._bpm` are assigned before
the division, so on `ZeroDivisionError` the partially updated state
persists. -/
def change_bpm (bb : BB) (new_bpm : Option Int) : BB × Option PyErr :=
  match new_bpm with
  | none => (bb, none)
  | some nb =>
    let bb1 := { bb with bpm := nb }
    let bb2 := { bb1 with ibpm := ((bb1.base_note / 4 : Nat) : Int) * bb1.bpm }
    if bb2.ibpm = 0 then (bb2, some .zeroDivisionError)
    else ({ bb2 with spb := Int.fdiv 60000 bb2.ibpm }, none)

/-- Embeds `BeatBoxer.change_base_note`: validates first, then assigns, with the
same partial-update behaviour as `change_bpm` on a zero divisor. -/
def change_base_note (bb : BB) (new_base_note : Option Nat) : BB × Option PyErr :=
  match new_base_note with
  | none => (bb, none)
  | some nbn =>
    if badBaseNote nbn then (bb, some .baseNoteError)
    else
      let bb1 := { bb with base_note := nbn }
      let bb2 := { bb1 with ibpm := ((nbn / 4 : Nat) : Int) * bb1.bpm }
      if bb2.ibpm = 0 then (bb2, some .zeroDivisionError)
      else ({ bb2 with spb := Int.fdiv 60000 bb2.ibpm }, none)

/-- Embeds `BeatBoxer.empty`: a template of `n` empty cells (as plain values; they
are put on the heap by `allocTemplate` or by `make_a_beat`'s copying). -/
def emptyT (n : Nat) : List Cell := List.replicate n []

/-- Clip lookup in `self.oneshots`; `none` models the `KeyError` raised by
subscripting with an unknown name. -/
def lookupClip (os : List (String × Nat)) (n : String) : Option Nat :=
  (os.find? (fun p => p.1 = n)).map (·.2)

/-- Embeds `BeatBoxer._max_len`: length of the longest clip named in the cell, `0`
for an empty cell; `none` models a `KeyError` from an unknown name. -/
def max_len (os : List (String × Nat)) (c : Cell) : Option Nat :=
  if c.isEmpty then some 0
  else (c.mapM (lookupClip os)).map (fun ls => ls.foldl max 0)

/-- Every clip name reachable from the template resolves in the clip
library; otherwise the mixing loop raises `KeyError`. -/
def cellsOk (os : List (String × Nat)) (h : Heap) (ms : List Nat) : Bool :=
  ms.all (fun cid => (heapGet h cid).all (fun n => (lookupClip os n).isSome))

/-- The copy `[Mlist(x) for x in measure]`: allocate fresh copies of the referenced
cells at the end of the heap, returning the new references in order. -/
def allocCopies (h : Heap) : List Nat → Heap × List Nat
  | [] => (h, [])
  | cid :: rest =>
    let r := allocCopies (h ++ [heapGet h cid]) rest
    (r.1, h.length :: r.2)

/-- Put a caller-built template (plain Python lists) on the heap; models the
caller's list objects so they can be passed to `make_a_beat`. -/
def allocTemplate (bb : BB) (cells : List Cell) : BB × List Nat :=
  let p := cells.foldl (fun (p : Heap × List Nat) c => (p.1 ++ [c], p.2 ++ [p.1.length]))
    (bb.heap, [])
  ({ bb with heap := p.1 }, p.2)

/-- Embeds `BeatBoxer.make_a_beat`.  Unless `_no_add` is set, the measure is first
copied into fresh `Mlist`s and the shortcuts applied to the copies.  The
canvas is `_spb * len(measure) * num_measures` ms of silence, extended when
`repeatable` is false by the longest clip of `measure[-1]` (`IndexError` on an
empty measure); the mixing loop then only overlays (length unchanged) and can
raise `KeyError` on unknown clip names, which `cellsOk` captures. -/
def make_a_beat (bb : BB) (measure : List Nat) (num_measures : Nat)
    (repeatable : Bool) (no_add : Bool) (shortcuts : Shortcuts) : BB × Option PyErr :=
  let p := if no_add then (bb.heap, measure) else allocCopies bb.heap measure
  let q := if no_add then (p.1, (none : Option PyErr))
           else edit_template p.1 p.2 "append" shortcuts
  let ms := p.2
  let bb1 := { bb with heap := q.1 }
  match q.2 with
  | some e => (bb1, some e)
  | none =>
    let beat_length : Int := bb1.spb * ms.length * num_measures
    let ext : Except PyErr Nat :=
      if repeatable then .ok 0
      else
        match ms.getLast? with
        | none => .error .indexError
        | some cid =>
          match max_len bb1.oneshots (heapGet bb1.heap cid) with
          | none => .error .keyError
          | some ml => .ok ml
    match ext with
    | .error e => (bb1, some e)
    | .ok ml =>
      if num_measures ≠ 0 ∧ ¬ cellsOk bb1.oneshots bb1.heap ms then
        (bb1, some .keyError)
      else
        ({ bb1 with current := some {
            audioLen := beat_length.toNat + ml,
            beats_per_measure := ms.length,
            bpm := bb1.bpm,
            num_measures := num_measures,
            base_note := bb1.base_note,
            measure := ms,
            repeatable := repeatable } }, none)

/-- Dict assignment `d[k] = v`, keeping insertion order. -/
def dictSet (d : List (String × Option Comp)) (k : String) (v : Option Comp) :
    List (String × Option Comp) :=
  if d.any (fun p => p.1 = k) then d.map (fun p => if p.1 = k then (k, v) else p)
  else d ++ [(k, v)]

/-- Embeds `BeatBoxer.store_beat`: `self.stored_beats[name] = self.current_beat`
(the dict entry shares the composition and its template cells). -/
def store_beat (bb : BB) (name : String) : BB :=
  { bb with stored := dictSet bb.stored name bb.current }

/-- Dict lookup in `self.stored_beats`; `none` models a `KeyError`. -/
def lookupStored (bb : BB) (name : String) : Option (Option Comp) :=
  (bb.stored.find? (fun p => p.1 = name)).map (·.2)

/-- Embeds `BeatBoxer.switch_current_beat`. -/
def switch_current_beat (bb : BB) (name : String) (force : Bool) :
    BB × Option PyErr :=
  if bb.current.isSome && !force then (bb, some .activeBeatError)
  else
    match lookupStored bb name with
    | none => (bb, some .keyError)
    | some c => ({ bb with current := c }, none)

/-- Python `x or y` on an optional number: `None` and `0` are falsy. -/
def orElseNat (x : Option Nat) (y : Nat) : Nat :=
  match x with
  | some n => if n = 0 then y else n
  | none => y

/-- Python `x or y` on an optional boolean: `None` and `False` are falsy. -/
def orElseBool (x : Option Bool) (y : Bool) : Bool :=
  match x with
  | some b => if b then true else y
  | none => y

/-- Embeds `BeatBoxer.edit_current_beat`: change tempo, apply the `add` shortcuts
then the `remove` shortcuts to the current template's cells in place,
re-render with `_no_add=True`, then restore the tempo fields.  Any exception
propagates immediately, keeping the mutations made so far. -/
def edit_current_beat (bb : BB) (bpm : Option Int) (base_note : Option Nat)
    (num_measures : Option Nat) (repeatable : Option Bool)
    (remove add : Shortcuts) : BB × Option PyErr :=
  let old_bpm := bb.bpm
  let r1 := change_bpm bb bpm
  match r1.2 with
  | some e => (r1.1, some e)
  | none =>
    let bb1 := r1.1
    let old_base_note := bb1.base_note
    let r2 := change_base_note bb1 base_note
    match r2.2 with
    | some e => (r2.1, some e)
    | none =>
      let bb2 := r2.1
      match bb2.current with
      | none => (bb2, some .typeError)
      | some c =>
        let ms := c.measure
        let r3 := edit_template bb2.heap ms "append" add
        let bb3 := { bb2 with heap := r3.1 }
        match r3.2 with
        | some e => (bb3, some e)
        | none =>
          let r4 := edit_template bb3.heap ms "remove" remove
          let bb4 := { bb3 with heap := r4.1 }
          match r4.2 with
          | some e => (bb4, some e)
          | none =>
            let r5 := make_a_beat bb4 ms (orElseNat num_measures c.num_measures)
                        (orElseBool repeatable c.repeatable) true []
            match r5.2 with
            | some e => (r5.1, some e)
            | none =>
              let r6 := change_bpm r5.1 (some old_bpm)
              match r6.2 with
              | some e => (r6.1, some e)
              | none => change_base_note r6.1 (some old_base_note)

/-! ### Concrete scenario used by the counterexamples and witnesses -/

/-- A small clip library: lengths in ms. -/
def demoOneshots : List (String × Nat) := [("kick", 100), ("snare", 80), ("hihat", 60)]

/-- Fallback object for extracting from `Except`/`Option` in concrete
scenarios (never reached on the scenarios below). -/
def defBB : BB :=
  { oneshots := [], bpm := 0, base_note := 0, ibpm := 0, spb := 0,
    heap := [], current := none, stored := [] }

/-- Fallback composition for `Option.getD`. -/
def defComp : Comp :=
  { audioLen := 0, beats_per_measure := 0, bpm := 0, num_measures := 0,
    base_note := 0, measure := [], repeatable := false }

/-- Extract a successfully constructed engine. -/
def getOk (e : Except PyErr BB) : BB :=
  match e with
  | .ok b => b
  | .error _ => defBB

/-- The engine `BeatBoxer(bpm=120, base_note=4)` with the demo clips: `_spb = 500`. -/
def bbDemo : BB := getOk (init demoOneshots 120 4)

/-- Caller template of four one-kick cells, placed on the heap. -/
def demo4 : BB × List Nat :=
  allocTemplate bbDemo [["kick"], ["kick"], ["kick"], ["kick"]]

/-- Caller template whose final cell is empty (for the tail-extension claim). -/
def demoTail : BB × List Nat := allocTemplate bbDemo [["kick"], []]

/-- Caller template of a single kick cell. -/
def demo1 : BB × List Nat := allocTemplate bbDemo [["kick"]]

/-- Engine state after rendering the one-kick template with
`num_measures=1, repeatable=True`: the active composition's template is the
fresh copy at heap index 1. -/
def bbActive : BB := (make_a_beat demo1.1 demo1.2 1 true false []).1

/-- The active composition of `bbActive`. -/
def compActive : Comp := bbActive.current.getD defComp

/-- Engine state after additionally storing the active composition as "x". -/
def bbStored : BB := store_beat bbActive "x"

/-- Demo remove batch: remove "snare" from every beat. -/
def demoRemove : Shortcuts := [("every_beat", .names ["snare"])]

/-- Demo add batch: add "snare" on beat 0. -/
def demoAdd : Shortcuts := [("single", .singles [("snare", [(0 : Int)])])]

/-! ### Counterexamples -/

/-- C1 counterexample.  Editing the active composition applies the add pass
first and then the remove pass — on cell 1, "snare" is added by the `single`
add shortcut and then removed by the `every_beat` remove shortcut, leaving
`["kick"]`, whereas a remove-pass-then-add-pass on a copy (computed alongside)
leaves `["kick", "snare"]`.  Moreover both passes mutate the stored template
object itself: after an add-only edit the cell of the previous composition's
template has changed. -/
theorem edit_order_and_copy_cex :
    (edit_current_beat bbActive none none none none demoRemove demoAdd).2 = none ∧
    (edit_current_beat bbActive none none none none demoRemove demoAdd).1.current.map
      Comp.measure = some [1] ∧
    heapGet (edit_current_beat bbActive none none none none demoRemove demoAdd).1.heap 1 =
      ["kick"] ∧
    heapGet (edit_template (edit_template [heapGet bbActive.heap 1] [0] "remove"
      demoRemove).1 [0] "append" demoAdd).1 0 = ["kick", "snare"] ∧
    (["kick"] : Cell) ≠ ["kick", "snare"] ∧
    heapGet bbActive.heap 1 = ["kick"] ∧
    heapGet (edit_current_beat bbActive none none none none []
      [("every_beat", .names ["snare"])]).1.heap 1 = ["kick", "snare"] := by
  decide

/-- C2 counterexample.  A pattern-application call whose only shortcut has the
unrecognized key "bogus" raises nothing (no `InvalidPatternError` exists in
the code) and returns the template unchanged. -/
theorem unknown_shortcut_cex :
    edit_template (emptyT 3) (List.range 3) "append" [("bogus", .names ["kick"])] =
      (emptyT 3, none) := by
  decide

/-- C3 counterexample.  Construction with `bpm = -10` succeeds (bpm is never
validated), and construction with `base_note = 1` and a positive bpm fails
with a `ZeroDivisionError` (from `60000 // ((1 // 4) * bpm)`) instead of
succeeding. -/
theorem tempo_validation_cex :
    initOk (init demoOneshots (-10) 4) = true ∧
    init demoOneshots 130 1 = .error .zeroDivisionError := by
  constructor
  · decide
  · rfl

/-- C4 counterexample.  Rendering the template `[["kick"], []]` (final cell
empty) with `repeatable = false` yields a 1000 ms buffer: the canvas is
extended by `_max_len(measure[-1]) = 0`, not by the 100 ms of the longest
clip of the final non-empty cell, which would give 1100 ms. -/
theorem tail_extension_cex :
    (make_a_beat demoTail.1 demoTail.2 1 false false []).2 = none ∧
    (make_a_beat demoTail.1 demoTail.2 1 false false []).1.current.map Comp.audioLen =
      some 1000 ∧
    max_len demoOneshots ["kick"] = some 100 ∧
    (1000 : Nat) ≠ 1000 + 100 := by
  decide

/-- C6 counterexample.  An `every_2nd` shortcut whose offset 99 lies far
outside the 4-cell template raises nothing and touches nothing: out-of-range
offsets are silently ignored, not an `IndexOutOfRangeError`. -/
theorem offset_out_of_range_cex :
    edit_template (emptyT 4) (List.range 4) "append"
      [("every_2nd", .pairs [("kick", 99)])] = (emptyT 4, none) := by
  decide

/-- C9 counterexample.  After `store_beat "x"`, an `edit_current_beat` that
only adds a snare on every beat leaves the stored entry's record in place but
mutates the template cell it shares with the active composition: the entry's
grid content changes from `["kick"]` to `["kick", "snare"]` without "x" ever
being re-stored. -/
theorem stored_template_mutated_cex :
    lookupStored (edit_current_beat bbStored none none none none []
      [("every_beat", .names ["snare"])]).1 "x" = some (some compActive) ∧
    compActive.measure = [1] ∧
    heapGet bbStored.heap 1 = ["kick"] ∧
    heapGet (edit_current_beat bbStored none none none none []
      [("every_beat", .names ["snare"])]).1.heap 1 = ["kick", "snare"] := by
  decide

/-- C8: the code treats a caller-supplied `repeatable=False` as unspecified.
`edit_current_beat(repeatable=False)` on an active composition stored with
`repeatable=True` succeeds but re-renders with `repeatable=True`, because
`repeatable or self.current_beat['repeatable']` falls back on every falsy
value, `False` included. -/
theorem repeatable_false_ignored :
    bbActive.current.map Comp.repeatable = some true ∧
    (edit_current_beat bbActive none none none (some false) [] []).2 = none ∧
    (edit_current_beat bbActive none none none (some false) [] []).1.current.map
      Comp.repeatable = some true := by
  decide


/-! ### Frame lemmas -/

theorem change_bpm_frame (bb : BB) (o : Option Int) :
    (change_bpm bb o).1.heap = bb.heap ∧ (change_bpm bb o).1.current = bb.current ∧
    (change_bpm bb o).1.stored = bb.stored ∧ (change_bpm bb o).1.oneshots = bb.oneshots ∧
    (change_bpm bb o).1.base_note = bb.base_note := by
  cases o with
  | none => simp [change_bpm]
  | some nb =>
    simp only [change_bpm]
    split <;> simp

theorem change_base_note_frame (bb : BB) (o : Option Nat) :
    (change_base_note bb o).1.heap = bb.heap ∧ (change_base_note bb o).1.current = bb.current ∧
    (change_base_note bb o).1.stored = bb.stored ∧
    (change_base_note bb o).1.oneshots = bb.oneshots := by
  cases o with
  | none => simp [change_base_note]
  | some nbn =>
    simp only [change_base_note]
    split
    · simp
    · split <;> simp

theorem make_a_beat_stored (bb : BB) (ms : List Nat) (nm : Nat) (rp na : Bool)
    (sc : Shortcuts) :
    (make_a_beat bb ms nm rp na sc).1.stored = bb.stored := by
  simp only [make_a_beat]
  split
  · simp
  · split
    · simp
    · split <;> (split <;> simp)


theorem change_bpm_stored (bb : BB) (o : Option Int) :
    (change_bpm bb o).1.stored = bb.stored := (change_bpm_frame bb o).2.2.1

theorem change_bpm_heap (bb : BB) (o : Option Int) :
    (change_bpm bb o).1.heap = bb.heap := (change_bpm_frame bb o).1

theorem change_bpm_current (bb : BB) (o : Option Int) :
    (change_bpm bb o).1.current = bb.current := (change_bpm_frame bb o).2.1

theorem change_base_note_stored (bb : BB) (o : Option Nat) :
    (change_base_note bb o).1.stored = bb.stored := (change_base_note_frame bb o).2.2.1

theorem change_base_note_heap (bb : BB) (o : Option Nat) :
    (change_base_note bb o).1.heap = bb.heap := (change_base_note_frame bb o).1

theorem change_base_note_current (bb : BB) (o : Option Nat) :
    (change_base_note bb o).1.current = bb.current := (change_base_note_frame bb o).2.1

theorem switch_current_beat_stored (bb : BB) (name : String) (f : Bool) :
    (switch_current_beat bb name f).1.stored = bb.stored := by
  simp only [switch_current_beat]
  split
  · simp
  · split <;> simp

theorem edit_current_beat_stored (bb : BB) (b : Option Int) (n : Option Nat)
    (m : Option Nat) (r : Option Bool) (rm ad : Shortcuts) :
    (edit_current_beat bb b n m r rm ad).1.stored = bb.stored := by
  simp only [edit_current_beat]
  repeat' split
  all_goals simp [change_bpm_stored, change_base_note_stored, make_a_beat_stored]

/-- C9 (amended): no operation other than `store_beat` writes the snapshot
store: `edit_current_beat`, `make_a_beat`, the tempo changes and
`switch_current_beat` all leave `stored_beats` — each entry's record of audio
buffer, tempo metadata and template references — exactly as it was.  (The
cells those template references point to are shared with the active
composition, and `edit_current_beat` mutates them in place, which is the part
of the original claim the counterexample refutes.) -/
theorem stored_entries_preserved (bb : BB) (b : Option Int) (n : Option Nat)
    (m : Option Nat) (r : Option Bool) (rm ad : Shortcuts) (ms : List Nat)
    (nm : Nat) (rp na : Bool) (sc : Shortcuts) (o : Option Int) (o2 : Option Nat)
    (name : String) (f : Bool) :
    (edit_current_beat bb b n m r rm ad).1.stored = bb.stored ∧
    (make_a_beat bb ms nm rp na sc).1.stored = bb.stored ∧
    (change_bpm bb o).1.stored = bb.stored ∧
    (change_base_note bb o2).1.stored = bb.stored ∧
    (switch_current_beat bb name f).1.stored = bb.stored :=
  ⟨edit_current_beat_stored bb b n m r rm ad, make_a_beat_stored bb ms nm rp na sc,
   change_bpm_stored bb o, change_base_note_stored bb o2,
   switch_current_beat_stored bb name f⟩

/-- C10: when `edit_current_beat` is given a bpm that `change_bpm` accepts
together with a base note that fails validation, the call raises the
base-note error after `self.bpm` has already been updated, and the restore
code at the end is never reached: the failed call leaves the engine's bpm at
the requested new value. -/
theorem edit_bpm_not_restored (bb : BB) (nb : Int) (b : Nat) (nm : Option Nat)
    (rp : Option Bool) (rm ad : Shortcuts)
    (hnb : ((bb.base_note / 4 : Nat) : Int) * nb ≠ 0)
    (hbad : badBaseNote b = true) :
    (edit_current_beat bb (some nb) (some b) nm rp rm ad).2 = some PyErr.baseNoteError ∧
    (edit_current_beat bb (some nb) (some b) nm rp rm ad).1.bpm = nb := by
  have h1 : change_bpm bb (some nb) = ({ bb with bpm := nb, ibpm := ((bb.base_note / 4 : Nat) : Int) * nb, spb := Int.fdiv 60000 (((bb.base_note / 4 : Nat) : Int) * nb) }, none) := by
    simp only [change_bpm]
    rw [if_neg]
    exact hnb
  have h2 : ∀ bb2 : BB, change_base_note bb2 (some b) = (bb2, some PyErr.baseNoteError) := by
    intro bb2
    simp [change_base_note, hbad]
  simp [edit_current_beat, h1, h2]

/-- C10 witness: on the demo engine (bpm 120, base note 4), requesting
`bpm=140` together with the invalid `base_note=3` raises the base-note error
and leaves `self.bpm` at 140. -/
theorem edit_bpm_not_restored_witness :
    (edit_current_beat bbActive (some 140) (some 3) none none [] []).2 =
      some PyErr.baseNoteError ∧
    (edit_current_beat bbActive (some 140) (some 3) none none [] []).1.bpm = 140 :=
  edit_bpm_not_restored bbActive 140 3 none none [] [] (by decide) (by decide)


/-- One unrecognized shortcut key leaves the heap untouched and raises
nothing: the kwargs loop of `_edit_template` has no else branch. -/
theorem applyShortcut_unknown (etype : String) (ms : List Nat) (h : Heap)
    (key : String) (arg : ShortcutArg)
    (h1 : key ≠ "every_beat") (h2 : findEveryNth key = none) (h3 : key ≠ "single") :
    applyShortcut etype ms h (key, arg) = (h, none) := by
  simp [applyShortcut, h1, h2, h3]

/-- C2 (amended): an unrecognized shortcut kind is not an error — it is
silently skipped.  A pattern-application call with an unknown key anywhere in
its batch behaves exactly like the call without it; the recognized shortcuts
before and after it are all applied. -/
theorem unknown_shortcut_skipped (hp : Heap) (ms : List Nat) (etype : String)
    (pre post : Shortcuts) (key : String) (arg : ShortcutArg)
    (h1 : key ≠ "every_beat") (h2 : findEveryNth key = none) (h3 : key ≠ "single") :
    edit_template hp ms etype (pre ++ (key, arg) :: post) =
      edit_template hp ms etype (pre ++ post) := by
  unfold edit_template
  split
  · induction pre generalizing hp with
    | nil =>
      simp only [List.nil_append, editTemplateGo, applyShortcut_unknown etype ms hp key arg h1 h2 h3]
    | cons s rest ih =>
      simp only [List.cons_append, editTemplateGo]
      split
      · rfl
      · next h' h'' =>
        exact ih _
  · rfl

/-- C2 witness: with a recognized shortcut on each side of the bogus key
"each_beat" (for which the code has no branch), the edit behaves exactly as
if the bogus entry were absent. -/
theorem unknown_shortcut_skipped_witness :
    edit_template (emptyT 3) (List.range 3) "append"
      [("every_beat", .names ["hihat"]), ("each_beat", .names ["kick"]),
       ("single", .singles [("snare", [(0 : Int)])])] =
    edit_template (emptyT 3) (List.range 3) "append"
      [("every_beat", .names ["hihat"]), ("single", .singles [("snare", [(0 : Int)])])] :=
  unknown_shortcut_skipped (emptyT 3) (List.range 3) "append"
    [("every_beat", .names ["hihat"])] [("single", .singles [("snare", [(0 : Int)])])]
    "each_beat" (.names ["kick"]) (by decide) (by decide) (by decide)


theorem heapSet_length (h : Heap) (i : Nat) (c : Cell) :
    (heapSet h i c).length = h.length := by
  simp [heapSet]

theorem heapGet_set_eq (h : Heap) (i : Nat) (c : Cell) (hi : i < h.length) :
    heapGet (heapSet h i c) i = c := by
  unfold heapGet heapSet
  rw [List.getD_eq_getElem?_getD, List.getElem?_set_eq_of_lt _ hi]
  rfl

theorem heapGet_set_ne (h : Heap) (i j : Nat) (c : Cell) (hne : i ≠ j) :
    heapGet (heapSet h i c) j = heapGet h j := by
  unfold heapGet heapSet
  rw [List.getD_eq_getElem?_getD, List.getElem?_set_ne hne, ← List.getD_eq_getElem?_getD]

/-- A one-pair `every_<nth>` inner loop with a nonzero `nth` touches the cell
exactly when the index satisfies the arithmetic condition, and never
raises. -/
theorem pairsStep_single (etype : String) (nth : Nat) (ind cid : Nat) (h : Heap)
    (name : String) (off : Int) (hnth : nth ≠ 0) :
    pairsStep etype nth ind cid h [(name, off)] =
      (if off ≤ (ind : Int) ∧ ((ind : Int) - off) % (nth : Int) = 0
       then heapSet h cid (cchange (heapGet h cid) name etype) else h, none) := by
  simp only [pairsStep, hnth, if_false]
  split_ifs <;> simp_all [pairsStep]

/-- Characterization of the `every_<nth>` outer loop over distinct in-range
beat indices: no error, the heap keeps its length, and cell `j` is touched
iff `j` is among the indices and satisfies the condition. -/
theorem nthLoop_single_spec (etype name : String) (nth : Nat) (off : Int)
    (len : Nat) (inds : List Nat) (h : Heap) (hnth : nth ≠ 0)
    (hlen : len ≤ h.length) (hv : ∀ i ∈ inds, i < len) (hd : inds.Nodup) :
    (nthLoop etype nth [(name, off)] (List.range len) h inds).2 = none ∧
    ((nthLoop etype nth [(name, off)] (List.range len) h inds).1).length = h.length ∧
    ∀ j, heapGet (nthLoop etype nth [(name, off)] (List.range len) h inds).1 j =
      if j ∈ inds ∧ off ≤ (j : Int) ∧ ((j : Int) - off) % (nth : Int) = 0
      then cchange (heapGet h j) name etype else heapGet h j := by
  induction inds generalizing h with
  | nil => simp [nthLoop]
  | cons ind rest ih =>
    have hind : ind < len := hv ind (List.mem_cons_self _ _)
    have hgd : (List.range len).getD ind 0 = ind := by
      rw [List.getD_eq_getElem?_getD, List.getElem?_range hind]
      rfl
    have hstep := pairsStep_single etype nth ind ind h name off hnth
    simp only [nthLoop, hgd, hstep]
    set h1 := if off ≤ (ind : Int) ∧ ((ind : Int) - off) % (nth : Int) = 0
      then heapSet h ind (cchange (heapGet h ind) name etype) else h with hh1
    have hlen1 : h1.length = h.length := by
      rw [hh1]; split <;> simp [heapSet_length]
    have hrest := ih h1 (by rw [hlen1]; exact hlen) (fun i hi => hv i (List.mem_cons_of_mem _ hi))
      hd.of_cons
    refine ⟨hrest.1, by rw [hrest.2.1, hlen1], ?_⟩
    intro j
    rw [hrest.2.2 j]
    have hnotmem : ind ∉ rest := (List.nodup_cons.mp hd).1
    by_cases hjr : j ∈ rest ∧ off ≤ (j : Int) ∧ ((j : Int) - off) % (nth : Int) = 0
    · have hjne : j ≠ ind := fun he => hnotmem (he ▸ hjr.1)
      have hget : heapGet h1 j = heapGet h j := by
        rw [hh1]; split
        · exact heapGet_set_ne h ind j _ (Ne.symm hjne)
        · rfl
      rw [if_pos hjr, hget, if_pos ⟨List.mem_cons_of_mem _ hjr.1, hjr.2⟩]
    · rw [if_neg hjr]
      by_cases hje : j = ind
      · subst hje
        by_cases hc : off ≤ (j : Int) ∧ ((j : Int) - off) % (nth : Int) = 0
        · have : heapGet h1 j = cchange (heapGet h j) name etype := by
            rw [hh1, if_pos hc]
            exact heapGet_set_eq h j _ (lt_of_lt_of_le hind hlen)
          rw [this, if_pos ⟨List.mem_cons_self _ _, hc⟩]
        · have : heapGet h1 j = heapGet h j := by rw [hh1, if_neg hc]
          rw [this, if_neg (fun hcon => hc hcon.2)]
      · have hget : heapGet h1 j = heapGet h j := by
          rw [hh1]; split
          · exact heapGet_set_ne h ind j _ (fun he => hje he.symm)
          · rfl
        rw [hget, if_neg]
        intro hcon
        rcases List.mem_cons.mp hcon.1 with he | hm
        · exact hje he
        · exact hjr ⟨hm, hcon.2⟩


theorem editTemplateGo_singleton (etype : String) (ms : List Nat) (h : Heap)
    (s : String × ShortcutArg) :
    editTemplateGo etype ms h [s] = applyShortcut etype ms h s := by
  rcases happ : applyShortcut etype ms h s with ⟨h', e⟩
  cases e <;> simp [editTemplateGo, happ]

/-- C5: applying an `every_<nth>` shortcut (any key the regex parses as `N`,
with `N ≠ 0`) with one `(name, offset)` pair to a template of cells touches
exactly the cells at indices `i` with `i ≥ offset` and `(i - offset) % N = 0`
— those get `cchange name etype`, all others are unchanged — and raises
nothing. -/
theorem every_nth_touches (cells : List Cell) (key : String) (N : Nat)
    (name : String) (off : Int) (etype : String)
    (hty : etype = "append" ∨ etype = "remove")
    (hN : findEveryNth key = some N) (hN0 : N ≠ 0) :
    (edit_template cells (List.range cells.length) etype
      [(key, ShortcutArg.pairs [(name, off)])]).2 = none ∧
    ∀ i, i < cells.length →
      heapGet (edit_template cells (List.range cells.length) etype
        [(key, ShortcutArg.pairs [(name, off)])]).1 i =
      if off ≤ (i : Int) ∧ ((i : Int) - off) % (N : Int) = 0
      then cchange (heapGet cells i) name etype else heapGet cells i := by
  have hkb : key ≠ "every_beat" := by
    intro he
    rw [he] at hN
    have hnone : findEveryNth "every_beat" = none := by decide
    rw [hnone] at hN
    exact Option.noConfusion hN
  have happ : applyShortcut etype (List.range cells.length) cells
      (key, ShortcutArg.pairs [(name, off)]) =
      nthLoop etype N [(name, off)] (List.range cells.length) cells
        (List.range cells.length) := by
    simp only [applyShortcut, if_neg hkb, hN, List.length_range]
  obtain ⟨h1, h2, h3⟩ := nthLoop_single_spec etype name N off cells.length
    (List.range cells.length) cells hN0 (le_refl _)
    (fun i hi => List.mem_range.mp hi) (List.nodup_range _)
  unfold edit_template
  rw [if_pos hty, editTemplateGo_singleton, happ]
  refine ⟨h1, fun i hi => ?_⟩
  rw [h3 i]
  simp [List.mem_range, hi]

/-- C5 witness: `every_4th` with offset 1 on a 16-cell empty template adds
the snare on exactly cells 1, 5, 9 and 13 (cells 0 and 2 shown untouched),
with no error. -/
theorem every_nth_touches_witness :
    (edit_template (emptyT 16) (List.range (emptyT 16).length) "append"
      [("every_4th", ShortcutArg.pairs [("snare", 1)])]).2 = none ∧
    heapGet (edit_template (emptyT 16) (List.range (emptyT 16).length) "append"
      [("every_4th", ShortcutArg.pairs [("snare", 1)])]).1 1 = ["snare"] ∧
    heapGet (edit_template (emptyT 16) (List.range (emptyT 16).length) "append"
      [("every_4th", ShortcutArg.pairs [("snare", 1)])]).1 5 = ["snare"] ∧
    heapGet (edit_template (emptyT 16) (List.range (emptyT 16).length) "append"
      [("every_4th", ShortcutArg.pairs [("snare", 1)])]).1 9 = ["snare"] ∧
    heapGet (edit_template (emptyT 16) (List.range (emptyT 16).length) "append"
      [("every_4th", ShortcutArg.pairs [("snare", 1)])]).1 13 = ["snare"] ∧
    heapGet (edit_template (emptyT 16) (List.range (emptyT 16).length) "append"
      [("every_4th", ShortcutArg.pairs [("snare", 1)])]).1 0 = [] ∧
    heapGet (edit_template (emptyT 16) (List.range (emptyT 16).length) "append"
      [("every_4th", ShortcutArg.pairs [("snare", 1)])]).1 2 = [] := by
  have h := every_nth_touches (emptyT 16) "every_4th" 4 "snare" 1 "append"
    (Or.inl rfl) (by decide) (by decide)
  exact ⟨h.1,
    by rw [h.2 1 (by decide)]; decide,
    by rw [h.2 5 (by decide)]; decide,
    by rw [h.2 9 (by decide)]; decide,
    by rw [h.2 13 (by decide)]; decide,
    by rw [h.2 0 (by decide)]; decide,
    by rw [h.2 2 (by decide)]; decide⟩


theorem pyIndex_out (len : Nat) (i : Int)
    (h : (len : Int) ≤ i ∨ i < -(len : Int)) : pyIndex len i = none := by
  unfold pyIndex
  split_ifs <;> first | rfl | (exfalso; omega)

theorem pyIndex_neg (len : Nat) (i : Int) (h0 : i < 0) (hge : -(len : Int) ≤ i) :
    pyIndex len i = some (len - (-i).toNat) := by
  unfold pyIndex
  rw [if_neg (by omega), if_pos (by omega)]

theorem heap_ext (h1 h2 : Heap) (hlen : h1.length = h2.length)
    (hget : ∀ j, heapGet h1 j = heapGet h2 j) : h1 = h2 := by
  apply List.ext_getElem?
  intro j
  rcases Nat.lt_or_ge j h1.length with hj | hj
  · have hj2 : j < h2.length := hlen ▸ hj
    rw [List.getElem?_eq_getElem hj, List.getElem?_eq_getElem hj2]
    have hq := hget j
    unfold heapGet at hq
    rw [List.getD_eq_getElem?_getD, List.getD_eq_getElem?_getD,
      List.getElem?_eq_getElem hj, List.getElem?_eq_getElem hj2] at hq
    simpa using hq
  · rw [List.getElem?_eq_none hj, List.getElem?_eq_none (hlen ▸ hj)]

/-- C6 (amended): out-of-range shortcut positions are not uniformly an
error.  A `single` index outside `-len .. len-1` does raise `IndexError`
(with no cell touched), but a `single` index in `-len .. -1` silently wraps
to `len + index` like any Python sequence index, and an `every_<nth>` offset
at or beyond `len` raises nothing and touches nothing — it is silently
ignored. -/
theorem shortcut_bounds_behavior (cells : List Cell) (name etype key : String)
    (i off : Int) (N : Nat) (hty : etype = "append" ∨ etype = "remove") :
    (((cells.length : Int) ≤ i ∨ i < -(cells.length : Int)) →
      edit_template cells (List.range cells.length) etype
        [("single", ShortcutArg.singles [(name, [i])])] =
        (cells, some PyErr.indexError)) ∧
    (i < 0 → -(cells.length : Int) ≤ i →
      edit_template cells (List.range cells.length) etype
        [("single", ShortcutArg.singles [(name, [i])])] =
      (heapSet cells (cells.length - (-i).toNat)
        (cchange (heapGet cells (cells.length - (-i).toNat)) name etype), none)) ∧
    (findEveryNth key = some N → N ≠ 0 → (cells.length : Int) ≤ off →
      edit_template cells (List.range cells.length) etype
        [(key, ShortcutArg.pairs [(name, off)])] = (cells, none)) := by
  have hsing : findEveryNth "single" = none := by decide
  refine ⟨?_, ?_, ?_⟩
  · intro hout
    unfold edit_template
    rw [if_pos hty, editTemplateGo_singleton]
    simp only [applyShortcut, if_neg (by decide : ¬("single" = "every_beat")), hsing,
      if_pos (rfl : "single" = "single"), singleLoop, singleIdxLoop, List.length_range,
      pyIndex_out cells.length i hout]
    simp
  · intro h0 hge
    have hlenpos : 0 < cells.length := by omega
    have hj : cells.length - (-i).toNat < cells.length := by omega
    have hgd : (List.range cells.length).getD (cells.length - (-i).toNat) 0 =
        cells.length - (-i).toNat := by
      rw [List.getD_eq_getElem?_getD, List.getElem?_range hj]
      rfl
    unfold edit_template
    rw [if_pos hty, editTemplateGo_singleton]
    simp only [applyShortcut, if_neg (by decide : ¬("single" = "every_beat")), hsing,
      if_pos (rfl : "single" = "single"), singleLoop, singleIdxLoop, List.length_range,
      pyIndex_neg cells.length i h0 hge, hgd]
    simp
  · intro hN hN0 hoff
    have hkb : key ≠ "every_beat" := by
      intro he
      rw [he] at hN
      have hnone : findEveryNth "every_beat" = none := by decide
      rw [hnone] at hN
      exact Option.noConfusion hN
    obtain ⟨h1, h2, h3⟩ := nthLoop_single_spec etype name N off cells.length
      (List.range cells.length) cells hN0 (le_refl _)
      (fun k hk => List.mem_range.mp hk) (List.nodup_range _)
    unfold edit_template
    rw [if_pos hty, editTemplateGo_singleton]
    simp only [applyShortcut, if_neg hkb, hN, List.length_range]
    have hcells : (nthLoop etype N [(name, off)] (List.range cells.length) cells
        (List.range cells.length)).1 = cells := by
      apply heap_ext _ _ h2
      intro j
      rw [h3 j, if_neg]
      intro hcon
      have hjlt := List.mem_range.mp hcon.1
      have := hcon.2.1
      omega
    exact Prod.ext hcells h1


/-- C6 witness: on a 4-cell template, `single` index 7 raises `IndexError`,
`single` index `-1` silently touches cell 3, and an `every_2nd` offset of 99
is silently ignored. -/
theorem shortcut_bounds_witness :
    edit_template (emptyT 4) (List.range (emptyT 4).length) "append"
      [("single", ShortcutArg.singles [("kick", [(7 : Int)])])] =
      (emptyT 4, some PyErr.indexError) ∧
    edit_template (emptyT 4) (List.range (emptyT 4).length) "append"
      [("single", ShortcutArg.singles [("kick", [(-1 : Int)])])] =
      ([[], [], [], ["kick"]], none) ∧
    edit_template (emptyT 4) (List.range (emptyT 4).length) "append"
      [("every_2nd", ShortcutArg.pairs [("kick", 99)])] = (emptyT 4, none) := by
  refine ⟨?_, ?_, ?_⟩
  · have h := (shortcut_bounds_behavior (emptyT 4) "kick" "append" "every_2nd" 7 99 2
      (Or.inl rfl)).1 (by decide)
    rw [h]
  · have h := (shortcut_bounds_behavior (emptyT 4) "kick" "append" "every_2nd" (-1) 99 2
      (Or.inl rfl)).2.1 (by decide) (by decide)
    rw [h]
    decide
  · have h := (shortcut_bounds_behavior (emptyT 4) "kick" "append" "every_2nd" 7 99 2
      (Or.inl rfl)).2.2 (by decide) (by decide) (by decide)
    rw [h]

theorem allocCopies_len (h : Heap) (ms : List Nat) :
    (allocCopies h ms).2.length = ms.length := by
  induction ms generalizing h with
  | nil => rfl
  | cons cid rest ih => simp [allocCopies, ih]

theorem edit_template_nil (h : Heap) (ms : List Nat) :
    edit_template h ms "append" [] = (h, none) := by
  simp [edit_template, editTemplateGo]

/-- Rendering a template with `repeatable = true` and resolvable clip names:
no error, and the composition records a buffer of exactly
`_spb * len(measure) * num_measures` (clamped at zero) ms. -/
theorem make_a_beat_true_spec (bb : BB) (ms : List Nat) (nm : Nat)
    (hcells : cellsOk bb.oneshots (allocCopies bb.heap ms).1
      (allocCopies bb.heap ms).2 = true) :
    (make_a_beat bb ms nm true false []).2 = none ∧
    (make_a_beat bb ms nm true false []).1.current =
      some { audioLen := (bb.spb * ms.length * nm).toNat,
             beats_per_measure := ms.length, bpm := bb.bpm, num_measures := nm,
             base_note := bb.base_note, measure := (allocCopies bb.heap ms).2,
             repeatable := true } := by
  unfold make_a_beat
  simp only [Bool.false_eq_true, if_false, edit_template_nil, if_true, hcells,
    Bool.not_true, and_false, ite_false, allocCopies_len]
  constructor
  · simp
  · simp [allocCopies_len]

/-- Rendering with `repeatable = false`: the canvas is additionally extended
by the longest clip of `measure[-1]` (given here as `ml`). -/
theorem make_a_beat_false_spec (bb : BB) (ms : List Nat) (nm : Nat) (cid : Nat)
    (ml : Nat)
    (hlast : (allocCopies bb.heap ms).2.getLast? = some cid)
    (hml : max_len bb.oneshots (heapGet (allocCopies bb.heap ms).1 cid) = some ml)
    (hcells : cellsOk bb.oneshots (allocCopies bb.heap ms).1
      (allocCopies bb.heap ms).2 = true) :
    (make_a_beat bb ms nm false false []).2 = none ∧
    (make_a_beat bb ms nm false false []).1.current =
      some { audioLen := (bb.spb * ms.length * nm).toNat + ml,
             beats_per_measure := ms.length, bpm := bb.bpm, num_measures := nm,
             base_note := bb.base_note, measure := (allocCopies bb.heap ms).2,
             repeatable := false } := by
  unfold make_a_beat
  simp only [Bool.false_eq_true, if_false, edit_template_nil, hlast, hml, hcells,
    and_false, ite_false, allocCopies_len]
  constructor
  · simp
  · simp [allocCopies_len]

/-- C7: with `repeatable = true` (and every referenced clip resolvable, with a
nonnegative `_spb` as produced by any positive tempo), rendering succeeds and
the produced buffer's length in ms is exactly
`ms_per_beat * beats_per_measure * num_measures`, with `ms_per_beat` the
engine's truncating-division `_spb`. -/
theorem render_repeatable_length (bb : BB) (ms : List Nat) (nm : Nat)
    (hcells : cellsOk bb.oneshots (allocCopies bb.heap ms).1
      (allocCopies bb.heap ms).2 = true)
    (hspb : 0 ≤ bb.spb) :
    (make_a_beat bb ms nm true false []).2 = none ∧
    (make_a_beat bb ms nm true false []).1.current.map Comp.audioLen =
      some (bb.spb * ms.length * nm).toNat ∧
    (((bb.spb * ms.length * nm).toNat : Int) = bb.spb * ms.length * nm) := by
  obtain ⟨h1, h2⟩ := make_a_beat_true_spec bb ms nm hcells
  refine ⟨h1, by rw [h2]; rfl, Int.toNat_of_nonneg ?_⟩
  have hn1 : (0 : Int) ≤ (ms.length : Int) := Int.natCast_nonneg _
  have hn2 : (0 : Int) ≤ (nm : Int) := Int.natCast_nonneg _
  exact mul_nonneg (mul_nonneg hspb hn1) hn2

/-- C7 witness: the demo engine (`_spb = 500`), a 4-cell template, 2 measures,
`repeatable = true`: a 4000 ms buffer. -/
theorem render_repeatable_length_witness :
    (make_a_beat demo4.1 demo4.2 2 true false []).2 = none ∧
    (make_a_beat demo4.1 demo4.2 2 true false []).1.current.map Comp.audioLen =
      some 4000 := by
  have h := render_repeatable_length demo4.1 demo4.2 2 (by decide) (by decide)
  exact ⟨h.1, by rw [h.2.1]; decide⟩

/-- C4 (amended): with `repeatable = false` the canvas is extended by the
duration of the longest clip referenced in the template's final cell — which
is 0 when that final cell is empty, regardless of earlier cells — and with
`repeatable = true` no extension is added. -/
theorem render_tail_extension (bb : BB) (ms : List Nat) (nm : Nat) (rp : Bool)
    (cid : Nat) (ml : Nat)
    (hlast : (allocCopies bb.heap ms).2.getLast? = some cid)
    (hml : max_len bb.oneshots (heapGet (allocCopies bb.heap ms).1 cid) = some ml)
    (hcells : cellsOk bb.oneshots (allocCopies bb.heap ms).1
      (allocCopies bb.heap ms).2 = true) :
    (make_a_beat bb ms nm rp false []).2 = none ∧
    (make_a_beat bb ms nm rp false []).1.current.map Comp.audioLen =
      some ((bb.spb * ms.length * nm).toNat + (if rp then 0 else ml)) := by
  cases rp with
  | true =>
    obtain ⟨h1, h2⟩ := make_a_beat_true_spec bb ms nm hcells
    exact ⟨h1, by rw [h2]; simp⟩
  | false =>
    obtain ⟨h1, h2⟩ := make_a_beat_false_spec bb ms nm cid ml hlast hml hcells
    exact ⟨h1, by rw [h2]; simp⟩

/-- C4 witness: the `[["kick"], []]` template, one measure, not repeatable:
the final cell is empty, so the extension is 0 and the buffer is 1000 ms. -/
theorem render_tail_extension_witness :
    (make_a_beat demoTail.1 demoTail.2 1 false false []).2 = none ∧
    (make_a_beat demoTail.1 demoTail.2 1 false false []).1.current.map Comp.audioLen =
      some 1000 := by
  have h := render_tail_extension demoTail.1 demoTail.2 1 false 3 0 (by decide)
    (by decide) (by decide)
  exact ⟨h.1, by rw [h.2]; decide⟩


theorem make_a_beat_noadd_heap (bb : BB) (ms : List Nat) (nm : Nat) (rp : Bool)
    (sc : Shortcuts) :
    (make_a_beat bb ms nm rp true sc).1.heap = bb.heap := by
  simp only [make_a_beat]
  split
  · simp
  · split
    · simp
    · split <;> (try split) <;> simp_all

theorem make_a_beat_noadd_current (bb : BB) (ms : List Nat) (nm : Nat) (rp : Bool)
    (sc : Shortcuts) (hsucc : (make_a_beat bb ms nm rp true sc).2 = none) :
    ∃ c, (make_a_beat bb ms nm rp true sc).1.current = some c ∧ c.measure = ms := by
  by_cases hco : nm ≠ 0 ∧ cellsOk bb.oneshots bb.heap ms = false
  · cases rp with
    | true =>
      simp [make_a_beat, hco] at hsucc
    | false =>
      rcases hl : ms.getLast? with _ | cid
      · simp [make_a_beat, hl] at hsucc
      · rcases hm : max_len bb.oneshots (heapGet bb.heap cid) with _ | ml
        · simp [make_a_beat, hl, hm] at hsucc
        · simp [make_a_beat, hl, hm, hco] at hsucc
  · cases rp with
    | true =>
      simp [make_a_beat, hco]
    | false =>
      rcases hl : ms.getLast? with _ | cid
      · simp [make_a_beat, hl] at hsucc
      · rcases hm : max_len bb.oneshots (heapGet bb.heap cid) with _ | ml
        · simp [make_a_beat, hl, hm] at hsucc
        · simp [make_a_beat, hl, hm, hco]


theorem land_self_eq (m : Nat) : m &&& m = m :=
  Nat.eq_of_testBit_eq (fun i => by rw [Nat.testBit_land, Bool.and_self])

/-- The bit trick of the tempo validation: `n & (n - 1) == 0` iff `n` is zero
or a power of two. -/
theorem land_pred_eq_zero_iff (n : Nat) :
    n &&& (n - 1) = 0 ↔ (n = 0 ∨ ∃ k, n = 2 ^ k) := by
  constructor
  · intro h
    induction n using Nat.strong_induction_on with
    | _ n ih =>
      rcases Nat.even_or_odd n with ⟨m, hm⟩ | ⟨m, hm⟩
      · rcases Nat.eq_zero_or_pos m with hm0 | hmpos
        · left; omega
        · have hb : n = Nat.bit false m := by simp [Nat.bit_false]; omega
          have hb2 : n - 1 = Nat.bit true (m - 1) := by simp [Nat.bit_true]; omega
          rw [hb2, hb, Nat.land_bit] at h
          simp only [Bool.false_and, Nat.bit_false] at h
          have hm' : m &&& (m - 1) = 0 := by omega
          rcases ih m (by omega) hm' with hz | ⟨k, hk⟩
          · omega
          · right; exact ⟨k + 1, by rw [pow_succ]; omega⟩
      · rcases Nat.eq_zero_or_pos m with hm0 | hmpos
        · right; exact ⟨0, by omega⟩
        · exfalso
          have hb : n = Nat.bit true m := by simp [Nat.bit_true]; omega
          have hb2 : n - 1 = Nat.bit false m := by simp [Nat.bit_false]; omega
          rw [hb2, hb, Nat.land_bit] at h
          simp only [Bool.and_false, Nat.bit_false, land_self_eq] at h
          omega
  · rintro (rfl | ⟨k, rfl⟩)
    · decide
    · induction k with
      | zero => decide
      | succ k ihk =>
        have hpos : 0 < 2 ^ k := Nat.two_pow_pos k
        have h1 : (2 : Nat) ^ (k + 1) = Nat.bit false (2 ^ k) := by
          simp [Nat.bit_false]; ring
        have h2 : (2 : Nat) ^ (k + 1) - 1 = Nat.bit true (2 ^ k - 1) := by
          simp [Nat.bit_true]; omega
        rw [h2, h1, Nat.land_bit]
        simp [Nat.bit_false, ihk]


/-- The validation bool of the source raises exactly off powers of two. -/
theorem badBaseNote_iff (n : Nat) : badBaseNote n = true ↔ ¬∃ k, n = 2 ^ k := by
  unfold badBaseNote
  simp only [Bool.or_eq_true, bne_iff_ne, ne_eq, beq_iff_eq]
  constructor
  · rintro (hne | rfl)
    · rintro ⟨k, hk⟩
      exact hne ((land_pred_eq_zero_iff n).mpr (Or.inr ⟨k, hk⟩))
    · rintro ⟨k, hk⟩
      have := Nat.two_pow_pos k
      omega
  · intro hnp
    by_cases h0 : n = 0
    · right; exact h0
    · left
      intro hz
      rcases (land_pred_eq_zero_iff n).mp hz with h | h
      · exact h0 h
      · exact hnp h

/-- C3 (amended): tempo validation raises the base-note error exactly when
`base_note` is not a power of two (zero included); `bpm` is never validated.
A power-of-two base note of at least 4 with any nonzero bpm (negative ones
included) is accepted, while base notes 1 and 2 pass the power-of-two check
but then crash with `ZeroDivisionError` because `(base_note // 4) * bpm` is
zero; `change_base_note` raises the base-note error under exactly the same
condition, and `change_bpm` performs no tempo validation at all — the only
error it can raise is `ZeroDivisionError`. -/
theorem tempo_validation_spec (os : List (String × Nat)) (bpm : Int) (bn : Nat)
    (bb : BB) (nb : Int) :
    (init os bpm bn = .error .baseNoteError ↔ ¬∃ k, bn = 2 ^ k) ∧
    ((∃ k, bn = 2 ^ k) → 4 ≤ bn → bpm ≠ 0 → initOk (init os bpm bn) = true) ∧
    ((bn = 1 ∨ bn = 2) → init os bpm bn = .error .zeroDivisionError) ∧
    ((change_base_note bb (some bn)).2 = some PyErr.baseNoteError ↔ ¬∃ k, bn = 2 ^ k) ∧
    (∀ e, (change_bpm bb (some nb)).2 = some e → e = PyErr.zeroDivisionError) := by
  refine ⟨?_, ?_, ?_, ?_, ?_⟩
  · by_cases hb : badBaseNote bn = true
    · constructor
      · intro _
        exact (badBaseNote_iff bn).mp hb
      · intro _
        simp [init, hb]
    · have hex : ∃ k, bn = 2 ^ k :=
        not_not.mp (fun hna => hb ((badBaseNote_iff bn).mpr hna))
      constructor
      · intro h
        simp only [init, if_neg hb] at h
        split at h <;> simp_all
      · intro hna
        exact absurd hex hna
  · rintro ⟨k, hk⟩ h4 hbpm
    have hb : ¬ badBaseNote bn = true := fun h => (badBaseNote_iff bn).mp h ⟨k, hk⟩
    have hdiv : 1 ≤ bn / 4 := (Nat.one_le_div_iff (by norm_num)).mpr h4
    have hne : ((bn / 4 : Nat) : Int) * bpm ≠ 0 :=
      mul_ne_zero (by exact_mod_cast Nat.pos_iff_ne_zero.mp hdiv) hbpm
    rw [init, if_neg hb, if_neg hne]
    rfl
  · rintro (rfl | rfl) <;> simp [init, badBaseNote]
  · by_cases hb : badBaseNote bn = true
    · constructor
      · intro _
        exact (badBaseNote_iff bn).mp hb
      · intro _
        simp [change_base_note, hb]
    · have hex : ∃ k, bn = 2 ^ k :=
        not_not.mp (fun hna => hb ((badBaseNote_iff bn).mpr hna))
      constructor
      · intro h
        simp only [change_base_note, if_neg hb] at h
        split at h <;> simp_all
      · intro hna
        exact absurd hex hna
  · intro e he
    rw [change_bpm] at he
    split at he
    · exact (Option.some.inj he).symm
    · simp at he

/-- C3 witness: base note 3 raises the base-note error, base note 16 with
positive bpm is accepted, base note 2 crashes with `ZeroDivisionError`, and
`change_base_note` to 6 raises the base-note error. -/
theorem tempo_validation_spec_witness :
    init demoOneshots 130 3 = .error .baseNoteError ∧
    initOk (init demoOneshots 130 16) = true ∧
    init demoOneshots 130 2 = .error .zeroDivisionError ∧
    (change_base_note bbActive (some 6)).2 = some PyErr.baseNoteError := by
  have hn3 : ¬∃ k, (3 : Nat) = 2 ^ k := by
    rintro ⟨k, hk⟩
    rcases k with _ | _ | k
    · simp at hk
    · simp at hk
    · have h := Nat.two_pow_pos k
      rw [pow_succ, pow_succ] at hk
      omega
  have hn6 : ¬∃ k, (6 : Nat) = 2 ^ k := by
    rintro ⟨k, hk⟩
    rcases k with _ | _ | _ | k
    · simp at hk
    · simp at hk
    · simp at hk
    · have h := Nat.two_pow_pos k
      rw [pow_succ, pow_succ, pow_succ] at hk
      omega
  exact ⟨(tempo_validation_spec demoOneshots 130 3 bbActive 140).1.mpr hn3,
    (tempo_validation_spec demoOneshots 130 16 bbActive 140).2.1 ⟨4, by norm_num⟩
      (by norm_num) (by norm_num),
    (tempo_validation_spec demoOneshots 130 2 bbActive 140).2.2.1 (Or.inr rfl),
    (tempo_validation_spec demoOneshots 130 6 bbActive 140).2.2.2.1.mpr hn6⟩


/-- C1 (amended): on a successful `edit_current_beat`, the Pattern Editor's
add pass runs first and the remove pass second, and both run in place on the
very cells of the Active Composition's stored Grid Template (no copy is
taken): the resulting heap is exactly the remove pass applied after the add
pass to the prior heap at the template's references, and the replacement
composition references the same cells as the old one. -/
theorem edit_applies_add_then_remove_in_place (bb : BB) (bpm : Option Int)
    (bn : Option Nat) (nm : Option Nat) (rp : Option Bool) (remove add : Shortcuts)
    (c : Comp) (hc : bb.current = some c)
    (hsucc : (edit_current_beat bb bpm bn nm rp remove add).2 = none) :
    (edit_current_beat bb bpm bn nm rp remove add).1.heap =
      (edit_template (edit_template bb.heap c.measure "append" add).1 c.measure
        "remove" remove).1 ∧
    ∃ c', (edit_current_beat bb bpm bn nm rp remove add).1.current = some c' ∧
      c'.measure = c.measure := by
  have hcur2 : (change_base_note (change_bpm bb bpm).1 bn).1.current = some c := by
    rw [change_base_note_current, change_bpm_current, hc]
  have hheap2 : (change_base_note (change_bpm bb bpm).1 bn).1.heap = bb.heap := by
    rw [change_base_note_heap, change_bpm_heap]
  simp only [edit_current_beat] at hsucc ⊢
  revert hsucc
  cases h1 : (change_bpm bb bpm).2 with
  | some e => intro hsucc; simp at hsucc
  | none =>
    cases h2 : (change_base_note (change_bpm bb bpm).1 bn).2 with
    | some e => intro hsucc; simp at hsucc
    | none =>
      rw [hcur2, hheap2]
      dsimp only
      intro hsucc
      cases h3 : (edit_template bb.heap c.measure "append" add).2 with
      | some e => rw [h3] at hsucc; simp at hsucc
      | none =>
        rw [h3] at hsucc
        dsimp only at hsucc ⊢
        cases h4 : (edit_template (edit_template bb.heap c.measure "append" add).1
            c.measure "remove" remove).2 with
        | some e => rw [h4] at hsucc; simp at hsucc
        | none =>
          rw [h4] at hsucc
          dsimp only at hsucc ⊢
          split at hsucc
          · simp at hsucc
          · next heq =>
            split at hsucc
            · simp at hsucc
            · next heq2 =>
              constructor
              · rw [change_base_note_heap, change_bpm_heap, make_a_beat_noadd_heap]
              · obtain ⟨c2, hcc, hmm2⟩ := make_a_beat_noadd_current _ _ _ _ _ heq
                rw [change_base_note_current, change_bpm_current]
                exact ⟨c2, hcc, hmm2⟩

/-- C1 witness: on the demo engine the edit (add a snare on beat 0, then
remove the snare everywhere) succeeds; the new heap is the add pass followed
by the remove pass on the stored template's own cells, and the new
composition references the same cell as before. -/
theorem edit_applies_add_then_remove_witness :
    bbActive.current = some compActive ∧
    (edit_current_beat bbActive none none none none demoRemove demoAdd).2 = none ∧
    (edit_current_beat bbActive none none none none demoRemove demoAdd).1.heap =
      (edit_template (edit_template bbActive.heap compActive.measure "append"
        demoAdd).1 compActive.measure "remove" demoRemove).1 ∧
    (edit_current_beat bbActive none none none none demoRemove demoAdd).1.current.map
      Comp.measure = some compActive.measure := by
  have h := edit_applies_add_then_remove_in_place bbActive none none none none
    demoRemove demoAdd compActive (by decide) (by decide)
  refine ⟨by decide, by decide, h.1, ?_⟩
  obtain ⟨c2, hc2, hm2⟩ := h.2
  rw [hc2]
  simp [hm2]

end BeatBoxer
